import Mathlib

/-!
Verification of the audio/video synchronization core of a media player.

The embedded code is the ffmpeg-backed playback pipeline
(src/ffmpeg/player.rs): the video frame queue with its discard-on-push
invariant, the audio sample queue and its device callback, the
synchronization anchor established from resampled audio, the relative-seek
handling in the demux/decode driving loop, and the video pacing delay
computation.

Modelling conventions:
- Wall-clock instants (std::time::Instant) and durations (std::time::Duration)
  are modelled as rational numbers of seconds (an instant is a point on the
  rational line, a duration a rational difference).
- f64 / f32 values (seconds, audio samples) are modelled as rationals; the
  concrete values appearing in the claims are exactly representable in f64,
  so rational arithmetic agrees with the source arithmetic there.
- VecDeque is modelled as a list whose head is the front of the deque.
- Decoded pixel data is abstracted to a frame identifier; presentation
  timestamps keep their Option structure.
-/

namespace CosmicPlayer

/-- A scaled video frame as stored in the queue: VideoFrame(Video, Option of
Instant) in the source. The pixel buffer is abstracted to an identifier;
the second component is the optional computed wall-clock presentation
instant. -/
structure VideoFrame where
  frameId : Nat
  instant : Option ℚ
deriving DecidableEq, Repr

/-- VideoQueue: a deque of frames plus the delay added to each frame to sync
with audio. -/
structure VideoQueue where
  data : List VideoFrame
  delay : ℚ
deriving DecidableEq, Repr

/-- VideoQueue::new. -/
def VideoQueue.new : VideoQueue :=
  { data := [], delay := 0 }

/-- The retain predicate used by VideoQueue::push:
other.1.map_or(true, |x| x <= frame.1.unwrap_or(x)). -/
def framePred (frame other : VideoFrame) : Bool :=
  match other.instant with
  | none => true
  | some x => decide (x ≤ frame.instant.getD x)

/-- VideoQueue::push: retain the frames satisfying the predicate (discarding
all frames newer than the pushed frame), then push_back the new frame. -/
def VideoQueue.push (q : VideoQueue) (frame : VideoFrame) : VideoQueue :=
  { q with data := q.data.filter (framePred frame) ++ [frame] }

/-- Pushing a whole sequence of frames, in order, front of the list first. -/
def VideoQueue.pushAll (q : VideoQueue) (fs : List VideoFrame) : VideoQueue :=
  fs.foldl VideoQueue.push q

/-- The loop body of VideoQueue::duration: fold the optional (start, end)
pair over the frames, taking min and max of every known instant. -/
def durationFold (acc : Option (ℚ × ℚ)) (frame : VideoFrame) : Option (ℚ × ℚ) :=
  match frame.instant with
  | some t =>
    match acc with
    | some (s, e) => some (min s t, max e t)
    | none => some (t, t)
  | none => acc

/-- VideoQueue::duration: end.duration_since(start) over the min/max fold,
zero when no frame has a known instant. -/
def VideoQueue.duration (q : VideoQueue) : ℚ :=
  match q.data.foldl durationFold none with
  | some (s, e) => e - s
  | none => 0

/-- AudioQueue: interleaved f32 samples plus channel count, sample rate and
the delay reported by the audio device. -/
structure AudioQueue where
  channels : Nat
  rate : ℚ
  data : List ℚ
  delay : ℚ
deriving DecidableEq, Repr

/-- AudioQueue::new. -/
def AudioQueue.new (channels : Nat) (rate : ℚ) : AudioQueue :=
  { channels := channels, rate := rate, data := [], delay := 0 }

/-- AudioQueue::duration_for_samples: sample count, integer-divided by the
channel count into frames, divided by the sample rate. -/
def AudioQueue.durationForSamples (q : AudioQueue) (samples : Nat) : ℚ :=
  ((samples / q.channels : Nat) : ℚ) / q.rate

/-- AudioQueue::duration. -/
def AudioQueue.duration (q : AudioQueue) : ℚ :=
  q.durationForSamples q.data.length

/-- The inner loop of the cpal output callback: fill the requested number of
sample slots from the front of the queue, substituting silence (0.0) and
counting one underrun per slot when the queue is exhausted. Returns the
emitted samples, the underrun count, and the remaining queue data. -/
def popSamples : Nat → List ℚ → List ℚ × Nat × List ℚ
  | 0, data => ([], 0, data)
  | k + 1, [] =>
    let r := popSamples k []
    (0 :: r.1, r.2.1 + 1, r.2.2)
  | k + 1, d :: ds =>
    let r := popSamples k ds
    (d :: r.1, r.2.1, r.2.2)

/-- One invocation of the cpal output callback (cpal_stream data_fn): record
the device-reported delay into the queue, then fill the output buffer of the
given size from the queue. Returns the output samples, the underrun count
(logged when positive, never fatal) and the updated queue. -/
def cpalCallback (count : Nat) (reportedDelay : ℚ) (q : AudioQueue) :
    List ℚ × Nat × AudioQueue :=
  let q1 : AudioQueue := { q with delay := reportedDelay }
  let r := popSamples count q1.data
  (r.1, r.2.1, { q1 with data := r.2.2 })

/-- The target queue buffer duration of the driving loop: 250 milliseconds. -/
def bufferDuration : ℚ := 250 / 1000

/-- The video pacing step of the driving loop: if the queued video duration
is below the target buffer duration set the video delay to the shortfall,
otherwise to zero; then add the audio queue's device delay. -/
def updateVideoDelay (vq : VideoQueue) (audioQueueDelay : ℚ) : VideoQueue :=
  let vd := vq.duration
  let q1 : VideoQueue :=
    if vd < bufferDuration then { vq with delay := bufferDuration - vd }
    else { vq with delay := 0 }
  { q1 with delay := q1.delay + audioQueueDelay }

/-- One decoded audio frame as seen by receive_and_process_decoded_audio_frames:
its optional presentation timestamp and the interleaved f32 samples produced
for it by the resampler (the resampler is an external library; its output is
an input of the model). -/
structure AudioFrameData where
  pts : Option ℤ
  samples : List ℚ
deriving DecidableEq, Repr

/-- The value of pts_opt after the drain loop: it is overwritten by every
received frame, so it ends as the pts of the last frame, or none when no
frame was received. -/
def lastPts (frames : List AudioFrameData) : Option ℤ :=
  frames.foldl (fun _ f => f.pts) none

/-- State touched by receive_and_process_decoded_audio_frames: the audio
queue's sample data and the sync anchor sync_time_opt. -/
structure AudioProcResult where
  queueData : List ℚ
  syncTime : Option ℚ
deriving DecidableEq, Repr

/-- One call of receive_and_process_decoded_audio_frames: drain the decoded
frames, appending each frame's resampled samples to the audio queue data and
tracking pts_opt; then, if the last pts is known: with an anchor already
established only measure drift (log, no state change), otherwise establish
the anchor as now minus the expected stream time elapsed
(pts times the audio time base). -/
def processDecodedAudioFrames (audioTimeBase now : ℚ)
    (frames : List AudioFrameData) (queueData : List ℚ)
    (syncTime : Option ℚ) : AudioProcResult :=
  let newData := frames.foldl (fun acc f => acc ++ f.samples) queueData
  match lastPts frames with
  | some pts =>
    match syncTime with
    | some t => { queueData := newData, syncTime := some t }
    | none =>
      { queueData := newData
        syncTime := some (now - (pts : ℚ) * audioTimeBase) }
  | none => { queueData := newData, syncTime := syncTime }

/-- A sequence of calls of receive_and_process_decoded_audio_frames, each
with its own wall-clock now and its own batch of decoded frames. -/
def processAudioCalls (audioTimeBase : ℚ)
    (calls : List (ℚ × List AudioFrameData))
    (queueData : List ℚ) (syncTime : Option ℚ) : AudioProcResult :=
  calls.foldl
    (fun acc c =>
      processDecodedAudioFrames audioTimeBase c.1 c.2 acc.queueData acc.syncTime)
    { queueData := queueData, syncTime := syncTime }

/-- Direction of a container seek: the range argument of ictx.seek.
Backward seeks pass the range ..timestamp, forward seeks timestamp... -/
inductive SeekDir
  | backward
  | forward
deriving DecidableEq, Repr

/-- The arguments of one ictx.seek call issued by the seek handler. -/
structure SeekCall where
  timestamp : ℤ
  dir : SeekDir
deriving DecidableEq, Repr

/-- The Rust cast (x as i64) applied to an f64, modelled on rationals:
truncation toward zero, saturating at the i64 bounds. -/
def rustCastF64ToI64 (q : ℚ) : ℤ :=
  let t : ℤ := if q < 0 then -⌊-q⌋ else ⌊q⌋
  max (-(2 ^ 63)) (min (2 ^ 63 - 1) t)

/-- State of the driving loop in ffmpeg_thread that the seek handler touches:
the sync anchor sync_time_opt, the last known audio position seconds_opt, and
the two shared queues. -/
structure PlayerState where
  syncTime : Option ℚ
  secondsOpt : Option ℚ
  audioQueue : AudioQueue
  videoQueue : VideoQueue
deriving DecidableEq, Repr

/-- Initial driving-loop state: sync_time_opt and seconds_opt start as None,
both queues start empty. -/
def initPlayerState (channels : Nat) (rate : ℚ) : PlayerState :=
  { syncTime := none
    secondsOpt := none
    audioQueue := AudioQueue.new channels rate
    videoQueue := VideoQueue.new }

/-- Handling of one dequeued PlayerMessage::SeekRelative(seek_seconds):
when no audio position is known the command is consumed with no effect;
otherwise the target timestamp is ((seconds + seek_seconds) * 1000000.0)
as i64, the seek direction is backward when seek_seconds has a negative
sign and forward otherwise, and, when the container seek call succeeds
(seekOk models the external call's result; a failure propagates out of
ffmpeg_thread via the question-mark operator), the sync anchor is cleared
and both queues' data are cleared. Returns the seek call issued to the
container, if any, and the resulting state (or the propagated error). -/
def applySeekRelative (seekOk : Bool) (seekSeconds : ℚ)
    (st : PlayerState) : Option SeekCall × Except Unit PlayerState :=
  match st.secondsOpt with
  | none => (none, Except.ok st)
  | some seconds =>
    let timestamp := rustCastF64ToI64 ((seconds + seekSeconds) * 1000000)
    let dir := if seekSeconds < 0 then SeekDir.backward else SeekDir.forward
    if seekOk then
      (some { timestamp := timestamp, dir := dir },
        Except.ok
          { st with
            syncTime := none
            audioQueue := { st.audioQueue with data := [] }
            videoQueue := { st.videoQueue with data := [] } })
    else
      (some { timestamp := timestamp, dir := dir }, Except.error ())

/-- One packet-read outcome of the driving loop: a packet with its stream
index, its packet pts and (for audio packets) the decoded frames it yields,
or a non-EOF read error (logged and skipped). EOF terminates the loop and is
not a loop step. -/
inductive PacketEvent
  | packet (stream : Nat) (pts : Option ℤ) (frames : List AudioFrameData)
  | readErr
deriving DecidableEq, Repr

/-- One iteration of the packet-read part of the driving loop: a video packet
is forwarded to the video decode channel (the loop-local state is untouched);
an audio packet is decoded and processed, and then, when the packet pts is
known, seconds_opt is set to pts times the audio time base; other stream
indices and read errors leave the state unchanged. -/
def readPacketStep (videoIdx audioIdx : Nat) (tb now : ℚ)
    (ev : PacketEvent) (st : PlayerState) : PlayerState :=
  match ev with
  | PacketEvent.readErr => st
  | PacketEvent.packet stream pts frames =>
    if stream = videoIdx then st
    else if stream = audioIdx then
      let r := processDecodedAudioFrames tb now frames st.audioQueue.data st.syncTime
      let st1 : PlayerState :=
        { st with
          audioQueue := { st.audioQueue with data := r.queueData }
          syncTime := r.syncTime }
      match pts with
      | some p => { st1 with secondsOpt := some ((p : ℚ) * tb) }
      | none => st1
    else st

/-- A run of packet-read iterations, each with its own wall-clock now. -/
def runPackets (videoIdx audioIdx : Nat) (tb : ℚ)
    (events : List (ℚ × PacketEvent)) (st : PlayerState) : PlayerState :=
  events.foldl (fun s e => readPacketStep videoIdx audioIdx tb e.1 e.2 s) st

/-- Whether a packet event is an audio packet with a known packet pts, i.e.
one that the driving loop processes down the audio path and that sets
seconds_opt. -/
def isAudioPacketWithKnownPts (videoIdx audioIdx : Nat) :
    PacketEvent → Bool
  | PacketEvent.packet s (some _) _ => s != videoIdx && s == audioIdx
  | _ => false

/-- Result of acquiring the video decoder during open: whether the hardware
device context is attached, and whether the fallback warning was logged. -/
structure VideoDecoderSetup where
  usesHwDevice : Bool
  loggedFallbackWarning : Bool
deriving DecidableEq, Repr

/-- The hardware-device acquisition in ffmpeg_thread: when
av_hwdevice_ctx_create returns 0 the context is attached to the decoder
(hardware decoding); for any other return value a warning is logged and the
decoder is left without a hardware device context (software decoding).
createResult is the external call's return value. -/
def setupHwDevice (createResult : ℤ) : VideoDecoderSetup :=
  if createResult = 0 then
    { usesHwDevice := true, loggedFallbackWarning := false }
  else
    { usesHwDevice := false, loggedFallbackWarning := true }

/-- The whole video-decoder acquisition: hardware setup is best-effort and
cannot fail; only the subsequent decoder construction
(video_decoder_context.decoder().video()) can fail, independently of the
hardware result. decoderInitOk models that external call's result. -/
def openVideoDecoder (createResult : ℤ) (decoderInitOk : Bool) :
    Except Unit VideoDecoderSetup :=
  let setup := setupHwDevice createResult
  if decoderInitOk then Except.ok setup else Except.error ()

/-! Helper lemmas. -/

theorem popSamples_eq (k : Nat) (data : List ℚ) :
    popSamples k data =
      (data.take k ++ List.replicate (k - data.length) 0,
        k - data.length, data.drop k) := by
  induction k generalizing data with
  | zero => simp [popSamples]
  | succ k ih =>
    cases data with
    | nil => simp [popSamples, ih, List.replicate_succ]
    | cons d ds => simp [popSamples, ih, Nat.succ_sub_succ]

/-! Claim theorems. -/

/-- C6: one audio device callback of size count on a queue holding fewer
samples emits the queued samples first, in FIFO order, then silence (0.0)
for the remaining slots; the underrun count equals the number of silent
slots (and is positive, hence logged); the queue data ends empty. -/
theorem audio_underrun_behavior (count : Nat) (reportedDelay : ℚ)
    (q : AudioQueue) (h : q.data.length < count) :
    (cpalCallback count reportedDelay q).1 =
      q.data ++ List.replicate (count - q.data.length) 0 ∧
    (cpalCallback count reportedDelay q).2.1 = count - q.data.length ∧
    0 < count - q.data.length ∧
    (cpalCallback count reportedDelay q).2.2.data = [] := by
  have hle : q.data.length ≤ count := Nat.le_of_lt h
  refine ⟨?_, ?_, by omega, ?_⟩ <;>
    simp [cpalCallback, popSamples_eq, List.take_of_length_le hle,
      List.drop_eq_nil_of_le hle]

/-- Witness for C6: requesting 4 samples from a queue holding 2. -/
theorem audio_underrun_behavior_witness :
    (cpalCallback 4 (1 / 100) (AudioQueue.mk 2 48000 [1 / 2, 1 / 3] 0)).1 =
      [1 / 2, 1 / 3] ++ List.replicate 2 0 ∧
    (cpalCallback 4 (1 / 100) (AudioQueue.mk 2 48000 [1 / 2, 1 / 3] 0)).2.1 = 2 ∧
    (0 : Nat) < 2 ∧
    (cpalCallback 4 (1 / 100) (AudioQueue.mk 2 48000 [1 / 2, 1 / 3] 0)).2.2.data =
      [] :=
  audio_underrun_behavior 4 (1 / 100) (AudioQueue.mk 2 48000 [1 / 2, 1 / 3] 0)
    (by decide)

/-- C5: the video pacing step sets the queue delay to the shortfall against
the 250 ms target when the buffered duration is below target, else to zero,
and then adds the audio device delay; a buffered duration of 100 ms yields
an added delay of 150 ms before the audio device delay. -/
theorem video_pacing_delay (vq : VideoQueue) (audioQueueDelay : ℚ) :
    (vq.duration < bufferDuration →
      (updateVideoDelay vq audioQueueDelay).delay =
        (bufferDuration - vq.duration) + audioQueueDelay) ∧
    (¬ vq.duration < bufferDuration →
      (updateVideoDelay vq audioQueueDelay).delay = 0 + audioQueueDelay) ∧
    (updateVideoDelay
        (VideoQueue.mk
          [VideoFrame.mk 0 (some 0), VideoFrame.mk 1 (some (1 / 10))] 0)
        audioQueueDelay).delay = 3 / 20 + audioQueueDelay := by
  refine ⟨fun h => ?_, fun h => ?_, ?_⟩
  · simp [updateVideoDelay, h]
  · simp [updateVideoDelay, h]
  · have hd : (VideoQueue.mk
        [VideoFrame.mk 0 (some 0), VideoFrame.mk 1 (some (1 / 10))] 0).duration =
        1 / 10 := by
      simp [VideoQueue.duration, durationFold]
    have hlt : (VideoQueue.mk
        [VideoFrame.mk 0 (some 0), VideoFrame.mk 1 (some (1 / 10))] 0).duration <
        bufferDuration := by
      rw [hd]; norm_num [bufferDuration]
    simp only [updateVideoDelay, if_pos hlt, hd]
    norm_num [bufferDuration]

/-- Witness for C5: a queue with a single frame has buffered duration 0,
below the 250 ms target, and gets exactly the shortfall plus the audio
delay; the fixed 100 ms scenario instance is restated at a concrete audio
delay of 20 ms. -/
theorem video_pacing_delay_witness :
    (updateVideoDelay (VideoQueue.mk [VideoFrame.mk 0 (some 0)] 0)
        (1 / 50)).delay =
      (bufferDuration - (VideoQueue.mk [VideoFrame.mk 0 (some 0)] 0).duration) +
        1 / 50 ∧
    (updateVideoDelay
        (VideoQueue.mk
          [VideoFrame.mk 0 (some 0), VideoFrame.mk 1 (some (1 / 10))] 0)
        (1 / 50)).delay = 3 / 20 + 1 / 50 :=
  ⟨(video_pacing_delay (VideoQueue.mk [VideoFrame.mk 0 (some 0)] 0) (1 / 50)).1
      (by simp [VideoQueue.duration, durationFold, bufferDuration]),
    (video_pacing_delay (VideoQueue.mk [VideoFrame.mk 0 (some 0)] 0) (1 / 50)).2.2⟩

/-- C8: when av_hwdevice_ctx_create fails (any nonzero return), the decoder
is left in pure software mode, the fallback warning is logged, and the
failure is never fatal: the open's outcome depends only on the subsequent
decoder construction. -/
theorem hw_decoder_best_effort (createResult : ℤ) (decoderInitOk : Bool)
    (h : createResult ≠ 0) :
    (setupHwDevice createResult).usesHwDevice = false ∧
    (setupHwDevice createResult).loggedFallbackWarning = true ∧
    (openVideoDecoder createResult decoderInitOk).isOk = decoderInitOk := by
  refine ⟨by simp [setupHwDevice, h], by simp [setupHwDevice, h], ?_⟩
  cases decoderInitOk <;> simp [openVideoDecoder, Except.isOk, Except.toBool]

/-- Witness for C8: a failing hardware-device creation (AVERROR code -22)
with a succeeding decoder construction still opens successfully, in
software mode, with the warning logged. -/
theorem hw_decoder_best_effort_witness :
    (setupHwDevice (-22)).usesHwDevice = false ∧
    (setupHwDevice (-22)).loggedFallbackWarning = true ∧
    (openVideoDecoder (-22) true).isOk = true :=
  hw_decoder_best_effort (-22) true (by decide)

/-- Counterexample for C2: the seek handler does not clamp the target at
zero. From position 5.0 s, SeekRelative(-10.0) issues a backward seek with
timestamp -5000000, while the claimed value max(0, 5 + (-10)) scaled by the
1000000 resolution is 0. -/
theorem seek_relative_clamp_counterexample :
    (applySeekRelative true (-10)
        (PlayerState.mk none (some 5) (AudioQueue.new 2 48000)
          VideoQueue.new)).1 =
      some (SeekCall.mk (-5000000) SeekDir.backward) ∧
    rustCastF64ToI64 (max 0 ((5 : ℚ) + -10) * 1000000) = 0 ∧
    ((-5000000 : ℤ) ≠ 0) := by
  refine ⟨?_, ?_, by norm_num⟩
  · norm_num [applySeekRelative, rustCastF64ToI64]
  · norm_num [rustCastF64ToI64]

/-- C2 amended: when the audio position seconds is known, the seek handler
issues a container seek whose timestamp is (seconds + seek_seconds) scaled
by the 1000000-per-second resolution and cast to i64 (truncation toward
zero, saturating; no clamping at zero), backward-direction when
seek_seconds is negative and forward-direction otherwise; in particular
SeekRelative(-10.0) from position 5.0 issues a backward seek at -5000000
and SeekRelative(+10.0) from 5.0 a forward seek at 15000000. -/
theorem seek_relative_target (seekOk : Bool) (seekSeconds seconds : ℚ)
    (st : PlayerState) (h : st.secondsOpt = some seconds) :
    (applySeekRelative seekOk seekSeconds st).1 =
      some (SeekCall.mk (rustCastF64ToI64 ((seconds + seekSeconds) * 1000000))
        (if seekSeconds < 0 then SeekDir.backward else SeekDir.forward)) ∧
    rustCastF64ToI64 (((5 : ℚ) + -10) * 1000000) = -5000000 ∧
    rustCastF64ToI64 (((5 : ℚ) + 10) * 1000000) = 15000000 := by
  refine ⟨?_, ?_, ?_⟩
  · cases seekOk <;> simp [applySeekRelative, h]
  · norm_num [rustCastF64ToI64]
  · norm_num [rustCastF64ToI64]

/-- Witness for C2: the two scenario seeks from position 5.0 s. -/
theorem seek_relative_target_witness :
    (applySeekRelative true (-10)
        (PlayerState.mk none (some 5) (AudioQueue.new 2 48000)
          VideoQueue.new)).1 =
      some (SeekCall.mk (-5000000) SeekDir.backward) ∧
    (applySeekRelative true 10
        (PlayerState.mk none (some 5) (AudioQueue.new 2 48000)
          VideoQueue.new)).1 =
      some (SeekCall.mk 15000000 SeekDir.forward) := by
  have h1 := seek_relative_target true (-10) 5
    (PlayerState.mk none (some 5) (AudioQueue.new 2 48000) VideoQueue.new) rfl
  have h2 := seek_relative_target true 10 5
    (PlayerState.mk none (some 5) (AudioQueue.new 2 48000) VideoQueue.new) rfl
  refine ⟨h1.1.trans ?_, h2.1.trans ?_⟩
  · rw [h1.2.1]; norm_num
  · rw [h2.2.2]; norm_num

/-- C4: every applied SeekRelative (known position, container seek issued
and succeeded) leaves the sync anchor unestablished and both queues' data
empty, while the queue containers persist: channel count, sample rate and
the delay fields are untouched. -/
theorem seek_reset_postcondition (seekSeconds seconds : ℚ) (st : PlayerState)
    (h : st.secondsOpt = some seconds) :
    ∃ st', (applySeekRelative true seekSeconds st).2 = Except.ok st' ∧
      st'.syncTime = none ∧
      st'.audioQueue.data = [] ∧
      st'.videoQueue.data = [] ∧
      st'.audioQueue.channels = st.audioQueue.channels ∧
      st'.audioQueue.rate = st.audioQueue.rate ∧
      st'.audioQueue.delay = st.audioQueue.delay ∧
      st'.videoQueue.delay = st.videoQueue.delay := by
  refine ⟨{ st with
      syncTime := none
      audioQueue := { st.audioQueue with data := [] }
      videoQueue := { st.videoQueue with data := [] } },
    ?_, rfl, rfl, rfl, rfl, rfl, rfl, rfl⟩
  simp [applySeekRelative, h]

/-- Witness for C4: a seek from a state with an established anchor and
nonempty queues. -/
theorem seek_reset_postcondition_witness :
    ∃ st',
      (applySeekRelative true 10
          (PlayerState.mk (some 7) (some 5)
            (AudioQueue.mk 2 48000 [1, 2] (1 / 100))
            (VideoQueue.mk [VideoFrame.mk 0 (some 3)] (1 / 8)))).2 =
        Except.ok st' ∧
      st'.syncTime = none ∧
      st'.audioQueue.data = [] ∧
      st'.videoQueue.data = [] ∧
      st'.audioQueue.channels = 2 ∧
      st'.audioQueue.rate = 48000 ∧
      st'.audioQueue.delay = 1 / 100 ∧
      st'.videoQueue.delay = 1 / 8 :=
  seek_reset_postcondition 10 5
    (PlayerState.mk (some 7) (some 5) (AudioQueue.mk 2 48000 [1, 2] (1 / 100))
      (VideoQueue.mk [VideoFrame.mk 0 (some 3)] (1 / 8))) rfl

theorem readPacketStep_secondsOpt_none (videoIdx audioIdx : Nat)
    (tb now : ℚ) (ev : PacketEvent) (st : PlayerState)
    (hev : isAudioPacketWithKnownPts videoIdx audioIdx ev = false)
    (hst : st.secondsOpt = none) :
    (readPacketStep videoIdx audioIdx tb now ev st).secondsOpt = none := by
  cases ev with
  | readErr => simpa [readPacketStep]
  | packet s pts frames =>
    by_cases hv : s = videoIdx
    · simp [readPacketStep, hv, hst]
    · by_cases ha : s = audioIdx
      · cases pts with
        | some p =>
          subst ha
          simp [isAudioPacketWithKnownPts, hv] at hev
        | none =>
          subst ha
          simp [readPacketStep, hv, hst]
      · simp [readPacketStep, hv, ha, hst]

theorem runPackets_secondsOpt_none (videoIdx audioIdx : Nat) (tb : ℚ)
    (events : List (ℚ × PacketEvent)) (st : PlayerState)
    (h : ∀ e ∈ events, isAudioPacketWithKnownPts videoIdx audioIdx e.2 = false)
    (hst : st.secondsOpt = none) :
    (runPackets videoIdx audioIdx tb events st).secondsOpt = none := by
  induction events generalizing st with
  | nil => simpa [runPackets]
  | cons e es ih =>
    rw [runPackets, List.foldl_cons]
    exact ih _ (fun x hx => h x (List.mem_cons_of_mem _ hx))
      (readPacketStep_secondsOpt_none _ _ _ _ _ _
        (h e (List.mem_cons_self _ _)) hst)

/-- C10: when no audio packet with a known pts has been processed since
the loop started, seconds_opt is still None, so a dequeued SeekRelative is
consumed with no effect: no container seek is issued and the whole loop
state (sync anchor, audio queue, video queue) is returned unchanged. -/
theorem seek_ignored_before_position_known (videoIdx audioIdx channels : Nat)
    (rate tb : ℚ) (events : List (ℚ × PacketEvent)) (seekOk : Bool)
    (seekSeconds : ℚ)
    (h : ∀ e ∈ events, isAudioPacketWithKnownPts videoIdx audioIdx e.2 = false) :
    applySeekRelative seekOk seekSeconds
        (runPackets videoIdx audioIdx tb events
          (initPlayerState channels rate)) =
      (none, Except.ok
        (runPackets videoIdx audioIdx tb events
          (initPlayerState channels rate))) := by
  have hs : (runPackets videoIdx audioIdx tb events
      (initPlayerState channels rate)).secondsOpt = none :=
    runPackets_secondsOpt_none videoIdx audioIdx tb events _ h rfl
  unfold applySeekRelative
  rw [hs]

/-- Witness for C10: a run with a video packet carrying a pts, an audio
packet without packet pts (whose decoded frames even establish the sync
anchor), and a read error; the SeekRelative is then a no-op. -/
theorem seek_ignored_before_position_known_witness :
    applySeekRelative true (-10)
        (runPackets 0 1 2
          [(0, PacketEvent.packet 0 (some 3) []),
            (1, PacketEvent.packet 1 none [AudioFrameData.mk (some 2) [1]]),
            (2, PacketEvent.readErr)]
          (initPlayerState 2 48000)) =
      (none, Except.ok
        (runPackets 0 1 2
          [(0, PacketEvent.packet 0 (some 3) []),
            (1, PacketEvent.packet 1 none [AudioFrameData.mk (some 2) [1]]),
            (2, PacketEvent.readErr)]
          (initPlayerState 2 48000))) :=
  seek_ignored_before_position_known 0 1 2 48000 2
    [(0, PacketEvent.packet 0 (some 3) []),
      (1, PacketEvent.packet 1 none [AudioFrameData.mk (some 2) [1]]),
      (2, PacketEvent.readErr)]
    true (-10) (by decide)

theorem processDecodedAudioFrames_syncTime_some (tb now : ℚ)
    (frames : List AudioFrameData) (qd : List ℚ) (a : ℚ) :
    (processDecodedAudioFrames tb now frames qd (some a)).syncTime = some a := by
  unfold processDecodedAudioFrames
  cases lastPts frames <;> simp

theorem processAudioCalls_cons (tb : ℚ) (c : ℚ × List AudioFrameData)
    (cs : List (ℚ × List AudioFrameData)) (qd : List ℚ) (sync : Option ℚ) :
    processAudioCalls tb (c :: cs) qd sync =
      processAudioCalls tb cs
        (processDecodedAudioFrames tb c.1 c.2 qd sync).queueData
        (processDecodedAudioFrames tb c.1 c.2 qd sync).syncTime := rfl

theorem processAudioCalls_append (tb : ℚ)
    (l₁ l₂ : List (ℚ × List AudioFrameData)) (qd : List ℚ) (sync : Option ℚ) :
    processAudioCalls tb (l₁ ++ l₂) qd sync =
      processAudioCalls tb l₂ (processAudioCalls tb l₁ qd sync).queueData
        (processAudioCalls tb l₁ qd sync).syncTime := by
  unfold processAudioCalls
  rw [List.foldl_append]

theorem processAudioCalls_syncTime_some (tb : ℚ)
    (calls : List (ℚ × List AudioFrameData)) (qd : List ℚ) (a : ℚ) :
    (processAudioCalls tb calls qd (some a)).syncTime = some a := by
  induction calls generalizing qd with
  | nil => rfl
  | cons c cs ih =>
    rw [processAudioCalls_cons, processDecodedAudioFrames_syncTime_some]
    exact ih _

theorem processAudioCalls_syncTime_none (tb : ℚ)
    (calls : List (ℚ × List AudioFrameData)) (qd : List ℚ)
    (h : ∀ c ∈ calls, lastPts c.2 = none) :
    (processAudioCalls tb calls qd none).syncTime = none := by
  induction calls generalizing qd with
  | nil => rfl
  | cons c cs ih =>
    rw [processAudioCalls_cons]
    have hc : (processDecodedAudioFrames tb c.1 c.2 qd none).syncTime = none := by
      simp [processDecodedAudioFrames, h c (List.mem_cons_self _ _)]
    rw [hc]
    exact ih _ (fun x hx => h x (List.mem_cons_of_mem _ hx))

/-- C3: starting unestablished, the sync anchor stays unestablished while
the processed audio batches carry no known timestamp; the first batch whose
(last) decoded frame has a known pts establishes it as now minus the
expected stream time elapsed (pts times the audio time base); all further
processing leaves the anchor untouched. The nonnegativity hypothesis
reflects that Duration::from_secs_f64 requires a nonnegative expected
time. -/
theorem sync_anchor_established_once (tb : ℚ)
    (pre post : List (ℚ × List AudioFrameData)) (now : ℚ)
    (frames : List AudioFrameData) (qd : List ℚ) (p : ℤ)
    (hpre : ∀ c ∈ pre, lastPts c.2 = none)
    (hframes : lastPts frames = some p)
    (hnn : 0 ≤ (p : ℚ) * tb) :
    (processAudioCalls tb pre qd none).syncTime = none ∧
    (processAudioCalls tb (pre ++ (now, frames) :: post) qd none).syncTime =
      some (now - (p : ℚ) * tb) := by
  have h1 := processAudioCalls_syncTime_none tb pre qd hpre
  refine ⟨h1, ?_⟩
  rw [processAudioCalls_append, h1, processAudioCalls_cons]
  have h2 : (processDecodedAudioFrames tb (now, frames).1 (now, frames).2
      (processAudioCalls tb pre qd none).queueData none).syncTime =
      some (now - (p : ℚ) * tb) := by
    simp [processDecodedAudioFrames, hframes]
  rw [h2]
  exact processAudioCalls_syncTime_some tb post _ _

/-- Witness for C3: a first batch without timestamps, an anchoring batch at
now = 20 with pts 4 and time base 2 (anchor 20 - 8 = 12), and a later batch
that does not overwrite it. -/
theorem sync_anchor_established_once_witness :
    (processAudioCalls 2 [(0, [AudioFrameData.mk none [1]])] [] none).syncTime =
      none ∧
    (processAudioCalls 2
        ([(0, [AudioFrameData.mk none [1]])] ++
          (20, [AudioFrameData.mk (some 4) [1, 2]]) ::
            [(30, [AudioFrameData.mk (some 9) []])]) [] none).syncTime =
      some 12 := by
  have h := sync_anchor_established_once 2 [(0, [AudioFrameData.mk none [1]])]
    [(30, [AudioFrameData.mk (some 9) []])] 20
    [AudioFrameData.mk (some 4) [1, 2]] [] 4
    (by decide) (by decide) (by norm_num)
  exact ⟨h.1, h.2.trans (by norm_num)⟩

/-- C9: frames with an unknown presentation instant bypass the discard rule:
every queued frame whose instant is None survives any push, and pushing a
frame whose own instant is None discards nothing at all — the queue keeps
all its frames and the new frame is appended at the back. -/
theorem unknown_instant_frames_bypass (q : VideoQueue) (f : VideoFrame) :
    (∀ g ∈ q.data, g.instant = none → g ∈ (q.push f).data) ∧
    (f.instant = none → (q.push f).data = q.data ++ [f]) := by
  constructor
  · intro g hg hnone
    unfold VideoQueue.push
    refine List.mem_append.mpr (Or.inl ?_)
    exact List.mem_filter.mpr ⟨hg, by simp [framePred, hnone]⟩
  · intro hf
    have hfilter : q.data.filter (framePred f) = q.data :=
      List.filter_eq_self.mpr fun a _ => by
        cases ha : a.instant <;> simp [framePred, ha, hf]
    simp [VideoQueue.push, hfilter]

/-- Witness for C9: pushing an instant-less frame onto a queue holding an
instant-less frame and a timestamped frame keeps everything. -/
theorem unknown_instant_frames_bypass_witness :
    VideoFrame.mk 0 none ∈
      ((VideoQueue.mk [VideoFrame.mk 0 none, VideoFrame.mk 1 (some 5)] 0).push
        (VideoFrame.mk 2 none)).data ∧
    ((VideoQueue.mk [VideoFrame.mk 0 none, VideoFrame.mk 1 (some 5)] 0).push
        (VideoFrame.mk 2 none)).data =
      [VideoFrame.mk 0 none, VideoFrame.mk 1 (some 5)] ++
        [VideoFrame.mk 2 none] :=
  ⟨(unknown_instant_frames_bypass
      (VideoQueue.mk [VideoFrame.mk 0 none, VideoFrame.mk 1 (some 5)] 0)
      (VideoFrame.mk 2 none)).1 (VideoFrame.mk 0 none) (by decide) rfl,
    (unknown_instant_frames_bypass
      (VideoQueue.mk [VideoFrame.mk 0 none, VideoFrame.mk 1 (some 5)] 0)
      (VideoFrame.mk 2 none)).2 rfl⟩

theorem mem_filter_instant_le (q : VideoQueue) (f : VideoFrame) (tf : ℚ)
    (hf : f.instant = some tf) :
    ∀ x ∈ (q.data.filter (framePred f)).filterMap VideoFrame.instant,
      x ≤ tf := by
  intro x hx
  rcases List.mem_filterMap.mp hx with ⟨g, hg, hgx⟩
  have hpred := (List.mem_filter.mp hg).2
  simp [framePred, hgx, hf] at hpred
  exact hpred

theorem push_sorted (q : VideoQueue) (f : VideoFrame)
    (h : List.Sorted (· ≤ ·) (q.data.filterMap VideoFrame.instant)) :
    List.Sorted (· ≤ ·) ((q.push f).data.filterMap VideoFrame.instant) := by
  have hsub : List.Sublist
      ((q.data.filter (framePred f)).filterMap VideoFrame.instant)
      (q.data.filterMap VideoFrame.instant) :=
    (List.filter_sublist _).filterMap _
  have hsorted : List.Sorted (· ≤ ·)
      ((q.data.filter (framePred f)).filterMap VideoFrame.instant) :=
    h.sublist hsub
  unfold VideoQueue.push
  rw [List.filterMap_append]
  cases hf : f.instant with
  | none =>
    have hnil : List.filterMap VideoFrame.instant [f] = [] := by simp [hf]
    rw [hnil, List.append_nil]
    exact hsorted
  | some tf =>
    have hone : List.filterMap VideoFrame.instant [f] = [tf] := by simp [hf]
    rw [hone]
    refine List.pairwise_append.mpr
      ⟨hsorted, List.pairwise_singleton _ _, ?_⟩
    intro a ha b hb
    rw [List.mem_singleton] at hb
    rw [hb]
    exact mem_filter_instant_le q f tf hf a ha

theorem pushAll_cons (q : VideoQueue) (f : VideoFrame)
    (fs : List VideoFrame) :
    q.pushAll (f :: fs) = (q.push f).pushAll fs := rfl

theorem pushAll_append (q : VideoQueue) (l₁ l₂ : List VideoFrame) :
    q.pushAll (l₁ ++ l₂) = (q.pushAll l₁).pushAll l₂ := by
  unfold VideoQueue.pushAll
  rw [List.foldl_append]

theorem pushAll_sorted (q : VideoQueue) (fs : List VideoFrame)
    (h : List.Sorted (· ≤ ·) (q.data.filterMap VideoFrame.instant)) :
    List.Sorted (· ≤ ·) ((q.pushAll fs).data.filterMap VideoFrame.instant) := by
  induction fs generalizing q with
  | nil => exact h
  | cons f fs ih =>
    rw [pushAll_cons]
    exact ih _ (push_sorted _ _ h)

theorem mem_of_mem_push (q : VideoQueue) (f g : VideoFrame)
    (h : g ∈ (q.push f).data) : g ∈ q.data ∨ g = f := by
  unfold VideoQueue.push at h
  rcases List.mem_append.mp h with h1 | h1
  · exact Or.inl (List.mem_filter.mp h1).1
  · exact Or.inr (List.mem_singleton.mp h1)

theorem not_mem_push_of_newer (q : VideoQueue) (f g : VideoFrame)
    (tf tg : ℚ) (hf : f.instant = some tf) (hg : g.instant = some tg)
    (hlt : tg < tf) : f ∉ (q.push g).data := by
  intro hmem
  unfold VideoQueue.push at hmem
  rcases List.mem_append.mp hmem with h1 | h1
  · have hpred := (List.mem_filter.mp h1).2
    simp [framePred, hf, hg] at hpred
    exact absurd hpred (not_le.mpr hlt)
  · have heq := List.mem_singleton.mp h1
    rw [heq, hg] at hf
    exact absurd (Option.some_inj.mp hf) (ne_of_lt hlt)

theorem not_mem_push_of_ne (q : VideoQueue) (f g : VideoFrame)
    (hne : f ≠ g) (hnot : f ∉ q.data) : f ∉ (q.push g).data := by
  intro hmem
  rcases mem_of_mem_push q g f hmem with h1 | h1
  · exact hnot h1
  · exact hne h1

theorem not_mem_pushAll (q : VideoQueue) (f : VideoFrame)
    (gs : List VideoFrame) (hnot : f ∉ q.data) (hgs : f ∉ gs) :
    f ∉ (q.pushAll gs).data := by
  induction gs generalizing q with
  | nil => exact hnot
  | cons g gs ih =>
    rw [pushAll_cons]
    refine ih _ (not_mem_push_of_ne q f g ?_ hnot) ?_
    · intro he
      exact hgs (he ▸ List.mem_cons_self _ _)
    · intro hm
      exact hgs (List.mem_cons_of_mem _ hm)

/-- Counterexample for C1: push a frame at instant 5 and then a frame at
instant 3 into an empty VideoQueue. At the time of the second push the
queue's maximum known instant is 5, and 3 is older than 5, yet the second
frame is present in (indeed is the sole survivor of) the final queue — the
push discards the already-queued newer frames, not the older pushed one. -/
theorem videoqueue_push_monotonicity_counterexample :
    ((VideoQueue.new.push (VideoFrame.mk 1 (some 5))).data.filterMap
      VideoFrame.instant) = [(5 : ℚ)] ∧
    (VideoFrame.mk 2 (some 3)).instant = some 3 ∧
    ((3 : ℚ) < 5) ∧
    VideoFrame.mk 2 (some 3) ∈
      ((VideoQueue.new.push (VideoFrame.mk 1 (some 5))).push
        (VideoFrame.mk 2 (some 3))).data := by
  decide

/-- C1 amended: after any sequence of pushes into an initially empty
VideoQueue the surviving known instants are non-decreasing from front to
back, and any pushed frame whose instant is strictly newer than the instant
of some frame pushed later (and which is not itself pushed again afterwards)
is absent from the final queue. -/
theorem videoqueue_push_monotonicity :
    (∀ fs : List VideoFrame,
      List.Sorted (· ≤ ·)
        ((VideoQueue.new.pushAll fs).data.filterMap VideoFrame.instant)) ∧
    (∀ (xs ys zs : List VideoFrame) (f g : VideoFrame) (tf tg : ℚ),
      f.instant = some tf → g.instant = some tg → tg < tf → f ∉ zs →
      f ∉ (VideoQueue.new.pushAll (xs ++ f :: (ys ++ g :: zs))).data) := by
  constructor
  · intro fs
    exact pushAll_sorted _ _ (by simp [VideoQueue.new])
  · intro xs ys zs f g tf tg hf hg hlt hz
    have hre : xs ++ f :: (ys ++ g :: zs) = (xs ++ f :: ys) ++ g :: zs := by
      simp
    rw [hre, pushAll_append, pushAll_cons]
    exact not_mem_pushAll _ f zs
      (not_mem_push_of_newer _ f g tf tg hf hg hlt) hz

/-- Witness for C1: the known instants surviving the push sequence
5, 8, 3, 9 are sorted, and the frame pushed at instant 8 is absent from the
final queue because a frame at the older instant 3 is pushed after it. -/
theorem videoqueue_push_monotonicity_witness :
    List.Sorted (· ≤ ·)
      ((VideoQueue.new.pushAll
        [VideoFrame.mk 0 (some 5), VideoFrame.mk 1 (some 8),
          VideoFrame.mk 2 (some 3), VideoFrame.mk 3 (some 9)]).data.filterMap
        VideoFrame.instant) ∧
    VideoFrame.mk 1 (some 8) ∉
      (VideoQueue.new.pushAll
        ([VideoFrame.mk 0 (some 5)] ++ VideoFrame.mk 1 (some 8) ::
          ([] ++ VideoFrame.mk 2 (some 3) ::
            [VideoFrame.mk 3 (some 9)]))).data :=
  ⟨videoqueue_push_monotonicity.1
      [VideoFrame.mk 0 (some 5), VideoFrame.mk 1 (some 8),
        VideoFrame.mk 2 (some 3), VideoFrame.mk 3 (some 9)],
    videoqueue_push_monotonicity.2 [VideoFrame.mk 0 (some 5)] []
      [VideoFrame.mk 3 (some 9)] (VideoFrame.mk 1 (some 8))
      (VideoFrame.mk 2 (some 3)) 8 3 rfl rfl (by decide) (by decide)⟩

theorem foldl_durationFold_some (data : List VideoFrame) (s e : ℚ) :
    data.foldl durationFold (some (s, e)) =
      some ((data.filterMap VideoFrame.instant).foldl min s,
        (data.filterMap VideoFrame.instant).foldl max e) := by
  induction data generalizing s e with
  | nil => simp
  | cons f fs ih =>
    cases hf : f.instant with
    | none => simp [durationFold, hf, ih]
    | some t => simp [durationFold, hf, ih]

theorem foldl_durationFold_none (data : List VideoFrame) :
    data.foldl durationFold none =
      match data.filterMap VideoFrame.instant with
      | [] => none
      | x :: xs => some (xs.foldl min x, xs.foldl max x) := by
  induction data with
  | nil => simp
  | cons f fs ih =>
    cases hf : f.instant with
    | none => simpa [durationFold, hf] using ih
    | some t => simp [durationFold, hf, foldl_durationFold_some]

theorem foldl_max_mem (xs : List ℚ) (x : ℚ) : xs.foldl max x ∈ x :: xs := by
  induction xs generalizing x with
  | nil => simp
  | cons y ys ih =>
    rw [List.foldl_cons]
    rcases List.mem_cons.mp (ih (max x y)) with h | h
    · rw [h]
      rcases max_choice x y with hm | hm <;> rw [hm] <;> simp
    · exact List.mem_cons_of_mem _ (List.mem_cons_of_mem _ h)

theorem le_foldl_max (xs : List ℚ) (x : ℚ) :
    ∀ y ∈ x :: xs, y ≤ xs.foldl max x := by
  induction xs generalizing x with
  | nil =>
    intro y hy
    rw [List.mem_singleton] at hy
    simp [hy]
  | cons z zs ih =>
    intro y hy
    rw [List.foldl_cons]
    rcases List.mem_cons.mp hy with h | h
    · rw [h]
      exact le_trans (le_max_left x z) (ih (max x z) _ (List.mem_cons_self _ _))
    · rcases List.mem_cons.mp h with h1 | h1
      · rw [h1]
        exact le_trans (le_max_right x z)
          (ih (max x z) _ (List.mem_cons_self _ _))
      · exact ih (max x z) y (List.mem_cons_of_mem _ h1)

theorem foldl_min_mem (xs : List ℚ) (x : ℚ) : xs.foldl min x ∈ x :: xs := by
  induction xs generalizing x with
  | nil => simp
  | cons y ys ih =>
    rw [List.foldl_cons]
    rcases List.mem_cons.mp (ih (min x y)) with h | h
    · rw [h]
      rcases min_choice x y with hm | hm <;> rw [hm] <;> simp
    · exact List.mem_cons_of_mem _ (List.mem_cons_of_mem _ h)

theorem foldl_min_le (xs : List ℚ) (x : ℚ) :
    ∀ y ∈ x :: xs, xs.foldl min x ≤ y := by
  induction xs generalizing x with
  | nil =>
    intro y hy
    rw [List.mem_singleton] at hy
    simp [hy]
  | cons z zs ih =>
    intro y hy
    rw [List.foldl_cons]
    rcases List.mem_cons.mp hy with h | h
    · rw [h]
      exact le_trans (ih (min x z) _ (List.mem_cons_self _ _)) (min_le_left x z)
    · rcases List.mem_cons.mp h with h1 | h1
      · rw [h1]
        exact le_trans (ih (min x z) _ (List.mem_cons_self _ _))
          (min_le_right x z)
      · exact ih (min x z) y (List.mem_cons_of_mem _ h1)

theorem duration_eq_max_sub_min (q : VideoQueue) :
    (q.data.filterMap VideoFrame.instant = [] → q.duration = 0) ∧
    (∀ m M : ℚ, M ∈ q.data.filterMap VideoFrame.instant →
      m ∈ q.data.filterMap VideoFrame.instant →
      (∀ y ∈ q.data.filterMap VideoFrame.instant, y ≤ M) →
      (∀ y ∈ q.data.filterMap VideoFrame.instant, m ≤ y) →
      q.duration = M - m) := by
  constructor
  · intro h
    unfold VideoQueue.duration
    rw [foldl_durationFold_none, h]
  · intro m M hM hm hub hlb
    unfold VideoQueue.duration
    rw [foldl_durationFold_none]
    cases hks : q.data.filterMap VideoFrame.instant with
    | nil => rw [hks] at hM; exact absurd hM (List.not_mem_nil M)
    | cons x xs =>
      rw [hks] at hM hm hub hlb
      have hMeq : xs.foldl max x = M :=
        le_antisymm (hub _ (foldl_max_mem xs x)) (le_foldl_max xs x M hM)
      have hmeq : xs.foldl min x = m :=
        le_antisymm (foldl_min_le xs x m hm) (hlb _ (foldl_min_mem xs x))
      simp [hMeq, hmeq]

/-- C7: for every queue produced by pushes (honoring the discard rule),
duration() equals the maximum minus the minimum of the known presentation
instants of the kept frames, and zero when no kept frame has a known
instant. -/
theorem videoqueue_duration_max_minus_min (fs : List VideoFrame) :
    ((VideoQueue.new.pushAll fs).data.filterMap VideoFrame.instant = [] →
      (VideoQueue.new.pushAll fs).duration = 0) ∧
    (∀ m M : ℚ,
      M ∈ (VideoQueue.new.pushAll fs).data.filterMap VideoFrame.instant →
      m ∈ (VideoQueue.new.pushAll fs).data.filterMap VideoFrame.instant →
      (∀ y ∈ (VideoQueue.new.pushAll fs).data.filterMap VideoFrame.instant,
        y ≤ M) →
      (∀ y ∈ (VideoQueue.new.pushAll fs).data.filterMap VideoFrame.instant,
        m ≤ y) →
      (VideoQueue.new.pushAll fs).duration = M - m) :=
  duration_eq_max_sub_min (VideoQueue.new.pushAll fs)

/-- Witness for C7: pushing instants 5, 8, 3, 9 keeps the frames at 3 and 9,
whose maximum 9 minus minimum 3 gives duration 6. -/
theorem videoqueue_duration_max_minus_min_witness :
    (VideoQueue.new.pushAll
      [VideoFrame.mk 0 (some 5), VideoFrame.mk 1 (some 8),
        VideoFrame.mk 2 (some 3), VideoFrame.mk 3 (some 9)]).duration = 6 := by
  have h := (videoqueue_duration_max_minus_min
    [VideoFrame.mk 0 (some 5), VideoFrame.mk 1 (some 8),
      VideoFrame.mk 2 (some 3), VideoFrame.mk 3 (some 9)]).2 3 9
    (by decide) (by decide) (by decide) (by decide)
  rw [h]
  norm_num

end CosmicPlayer
